import Mathlib

/-!
Verification of the FullTask-AI-Lite chat-orchestration logic.

The repository ships two revisions of the root component (`app.component.ts`
holds both, separated by a document marker).  Revision one carries the
local-storage persistence store, the audio attachment slot and per-handler
error handling; revision two carries the centralized try/catch in
`sendMessage` and the replace-style grounding-chunk accumulation.  We embed
both where the claims touch them, in namespaces `V1` and `V2`, and keep the
source's identifiers.  Machine state mutated through Angular signals becomes
explicit state records; streamed `AsyncGenerator` output becomes the finite
list of fragments it yields; `Date.now()` readings become explicit `Nat`
parameters.
-/

/-- `ChatRole` from `chat.model.ts`: `'user' | 'model'`. -/
inductive ChatRole where
  | user
  | model
deriving DecidableEq, Repr

/-- `MediaAttachment` from `chat.model.ts`. -/
structure MediaAttachment where
  dataUrl : String
  mimeType : String
deriving DecidableEq, Repr

/-- The `web` payload of a grounding chunk: `{ uri, title }`. -/
structure WebSource where
  uri : String
  title : String
deriving DecidableEq, Repr

/-- `GroundingChunk` from `chat.model.ts`: `{ web?: { uri, title } }`. -/
structure GroundingChunk where
  web : Option WebSource
deriving DecidableEq, Repr

/-- `ChatMessage` from `chat.model.ts`.  Optional JS fields become `Option`s;
the optional booleans `isLoading`/`isPlayingAudio` are used by the code only
for truthiness, so `undefined` and `false` coincide and we model them as
`Bool` with default `false`. -/
structure ChatMessage where
  id : Nat
  role : ChatRole
  text : String
  image : Option MediaAttachment := none
  video : Option MediaAttachment := none
  audio : Option MediaAttachment := none
  groundingChunks : Option (List GroundingChunk) := none
  isLoading : Bool := false
  isPlayingAudio : Bool := false
deriving DecidableEq, Repr

/-- The shape persisted by `saveChatHistory`: `{ role, text, groundingChunks }`
(the JSON round trip through `localStorage` is faithful on this shape, so we
model the stored value as the record list itself). -/
structure SavedMessage where
  role : ChatRole
  text : String
  groundingChunks : Option (List GroundingChunk)
deriving DecidableEq, Repr

/-- One fragment yielded by `generateContentStream`:
`{ text?, groundingChunks? }`. -/
structure StreamChunk where
  text : Option String := none
  groundingChunks : Option (List GroundingChunk) := none
deriving DecidableEq, Repr

namespace V1

/-- `saveChatHistory` (revision one): project each message to
`{ role, text, groundingChunks }` and store the list. -/
def saveChatHistory (history : List ChatMessage) : List SavedMessage :=
  history.map fun msg => ⟨msg.role, msg.text, msg.groundingChunks⟩

/-- `loadChatHistory` (revision one): rebuild messages from the stored list,
assigning `id := Date.now() + index` and resetting `isLoading` and
`isPlayingAudio` to `false`.  `now` is the `Date.now()` reading; the spread
`{...msg}` carries no media fields because none are saved. -/
def loadChatHistory (now : Nat) : List SavedMessage → List ChatMessage
  | [] => []
  | msg :: rest =>
      { id := now, role := msg.role, text := msg.text,
        groundingChunks := msg.groundingChunks,
        isLoading := false, isPlayingAudio := false } :: loadChatHistory (now + 1) rest

/-- Component state of revision one: the signals `chatHistory`, `isLoading`,
`userInput`, `uploadedFile`, plus the `localStorage` entry under
`fulltask_ai_lite_history` (`none` = key absent). -/
structure AppState where
  chatHistory : List ChatMessage
  isLoading : Bool
  userInput : String
  uploadedFile : Option MediaAttachment
  storage : Option (List SavedMessage)
deriving DecidableEq, Repr

/-- `startNewConversation` (revision one): clear the message list, the input,
the pending upload, and remove the persisted entry. -/
def startNewConversation (s : AppState) : AppState :=
  { s with chatHistory := [], userInput := "", uploadedFile := none,
           storage := none }

theorem loadChatHistory_flags (now : Nat) (saved : List SavedMessage) :
    ∀ m ∈ loadChatHistory now saved, m.isLoading = false ∧ m.isPlayingAudio = false := by
  induction saved generalizing now with
  | nil => intro m hm; cases hm
  | cons msg rest ih =>
      intro m hm
      rcases List.mem_cons.mp hm with hm | hm
      · simp [hm]
      · exact ih (now + 1) m hm

theorem loadChatHistory_id_ge (now : Nat) (saved : List SavedMessage) :
    ∀ m ∈ loadChatHistory now saved, now ≤ m.id := by
  induction saved generalizing now with
  | nil => intro m hm; cases hm
  | cons msg rest ih =>
      intro m hm
      rcases List.mem_cons.mp hm with hm | hm
      · simp [hm]
      · exact le_trans (Nat.le_succ now) (ih (now + 1) m hm)

theorem loadChatHistory_triples (now : Nat) (saved : List SavedMessage) :
    (loadChatHistory now saved).map (fun m => (m.text, m.role, m.groundingChunks)) =
      saved.map (fun m => (m.text, m.role, m.groundingChunks)) := by
  induction saved generalizing now with
  | nil => rfl
  | cons msg rest ih => simp [loadChatHistory, ih]

end V1

/-- Claim C4: saving a conversation and loading it back reproduces the same
ordered sequence of (text, role, groundingChunks) triples, with every
transient `isLoading`/`isPlayingAudio` flag reset to `false` (ids are freshly
synthesized from the load-time clock). -/
theorem save_load_round_trip (now : Nat) (history : List ChatMessage) :
    ((V1.loadChatHistory now (V1.saveChatHistory history)).map
        (fun m => (m.text, m.role, m.groundingChunks)) =
      history.map (fun m => (m.text, m.role, m.groundingChunks))) ∧
    ∀ m ∈ V1.loadChatHistory now (V1.saveChatHistory history),
      m.isLoading = false ∧ m.isPlayingAudio = false := by
  refine ⟨?_, V1.loadChatHistory_flags now _⟩
  rw [V1.loadChatHistory_triples]
  simp [V1.saveChatHistory]

/-- Claim C9: after `startNewConversation`, the chat history is empty, the
input text is empty, the pending upload is absent, and the persisted
local-storage entry is absent. -/
theorem startNewConversation_clears (s : V1.AppState) :
    (V1.startNewConversation s).chatHistory = [] ∧
    (V1.startNewConversation s).userInput = "" ∧
    (V1.startNewConversation s).uploadedFile = none ∧
    (V1.startNewConversation s).storage = none := by
  refine ⟨rfl, rfl, rfl, rfl⟩

namespace V2

/-- One iteration of revision two's `handleChat` stream loop on the
placeholder message: `text := msg.text + (chunk.text || '')` and
`groundingChunks := chunk.groundingChunks || msg.groundingChunks` (a defined
fragment list — even an empty array, which is truthy — replaces the stored
one; an absent one keeps it). -/
def accumulate (msg : ChatMessage) (chunk : StreamChunk) : ChatMessage :=
  { msg with text := msg.text ++ chunk.text.getD "",
             groundingChunks := chunk.groundingChunks.orElse fun _ => msg.groundingChunks }

/-- The `chatHistory.update` inside the loop: rewrite the message whose id is
`modelMessageId`, leave every other message alone. -/
def applyChunk (modelMessageId : Nat) (chunk : StreamChunk)
    (history : List ChatMessage) : List ChatMessage :=
  history.map fun msg =>
    if msg.id = modelMessageId then accumulate msg chunk else msg

/-- The final `chatHistory.update` of `handleChat`: clear the placeholder's
`isLoading` flag. -/
def settleMessage (modelMessageId : Nat) (history : List ChatMessage) : List ChatMessage :=
  history.map fun msg =>
    if msg.id = modelMessageId then { msg with isLoading := false } else msg

/-- Revision two's `handleChat`, with the finite list of fragments the
gateway stream yields made explicit. -/
def handleChat (modelMessageId : Nat) (stream : List StreamChunk)
    (history : List ChatMessage) : List ChatMessage :=
  settleMessage modelMessageId
    (stream.foldl (fun h chunk => applyChunk modelMessageId chunk h) history)

/-- Ordered concatenation of the fragments' text fields (absent text counts
as the empty string, as in `chunk.text || ''`). -/
def concatTexts : List StreamChunk → String
  | [] => ""
  | c :: rest => c.text.getD "" ++ concatTexts rest

/-- The last defined `groundingChunks` field of the stream, if any: the value
the replace-or-keep accumulation leaves on the placeholder. -/
def lastSupplied : List StreamChunk → Option (List GroundingChunk)
  | [] => none
  | c :: rest => (lastSupplied rest).orElse fun _ => c.groundingChunks

theorem map_update_split (f : ChatMessage → ChatMessage) (mid : Nat)
    (pre post : List ChatMessage) (p : ChatMessage) (hp : p.id = mid)
    (hpre : ∀ m ∈ pre, m.id ≠ mid) (hpost : ∀ m ∈ post, m.id ≠ mid) :
    ((pre ++ p :: post).map fun msg => if msg.id = mid then f msg else msg) =
      pre ++ f p :: post := by
  rw [List.map_append, List.map_cons, if_pos hp]
  congr 1
  · calc pre.map (fun msg => if msg.id = mid then f msg else msg)
        = pre.map id := List.map_congr_left fun m hm => if_neg (hpre m hm)
      _ = pre := List.map_id pre
  · congr 1
    calc post.map (fun msg => if msg.id = mid then f msg else msg)
        = post.map id := List.map_congr_left fun m hm => if_neg (hpost m hm)
      _ = post := List.map_id post

theorem accumulate_id (p : ChatMessage) (c : StreamChunk) :
    (accumulate p c).id = p.id := rfl

theorem accumulate_isLoading (p : ChatMessage) (c : StreamChunk) :
    (accumulate p c).isLoading = p.isLoading := rfl

theorem foldl_applyChunk_split (mid : Nat) (stream : List StreamChunk)
    (pre post : List ChatMessage) (p : ChatMessage) (hp : p.id = mid)
    (hpre : ∀ m ∈ pre, m.id ≠ mid) (hpost : ∀ m ∈ post, m.id ≠ mid) :
    stream.foldl (fun h chunk => applyChunk mid chunk h) (pre ++ p :: post) =
      pre ++ stream.foldl accumulate p :: post := by
  induction stream generalizing p with
  | nil => rfl
  | cons c rest ih =>
      rw [List.foldl_cons, List.foldl_cons, applyChunk,
          map_update_split (fun msg => accumulate msg c) mid pre post p hp hpre hpost]
      exact ih (accumulate p c) (by rw [accumulate_id, hp])

theorem foldl_accumulate_text (stream : List StreamChunk) (p : ChatMessage) :
    (stream.foldl accumulate p).text = p.text ++ concatTexts stream := by
  induction stream generalizing p with
  | nil => simp [concatTexts]
  | cons c rest ih =>
      rw [List.foldl_cons, ih, concatTexts]
      show (accumulate p c).text ++ _ = _
      rw [accumulate]
      exact String.append_assoc _ _ _

theorem foldl_accumulate_gc (stream : List StreamChunk) (p : ChatMessage) :
    (stream.foldl accumulate p).groundingChunks =
      (lastSupplied stream).orElse fun _ => p.groundingChunks := by
  induction stream generalizing p with
  | nil => rfl
  | cons c rest ih =>
      rw [List.foldl_cons, ih, lastSupplied]
      show (lastSupplied rest).orElse _ = ((lastSupplied rest).orElse _).orElse _
      cases lastSupplied rest with
      | none => rfl
      | some g => rfl

theorem foldl_accumulate_isLoading (stream : List StreamChunk) (p : ChatMessage) :
    (stream.foldl accumulate p).isLoading = p.isLoading := by
  induction stream generalizing p with
  | nil => rfl
  | cons c rest ih => rw [List.foldl_cons, ih, accumulate_isLoading]

theorem lastSupplied_eq_getLast? (stream : List StreamChunk) :
    lastSupplied stream = (stream.filterMap StreamChunk.groundingChunks).getLast? := by
  induction stream with
  | nil => rfl
  | cons c rest ih =>
      rw [lastSupplied, ih, List.filterMap_cons]
      cases hc : c.groundingChunks with
      | none =>
          cases hr : (rest.filterMap StreamChunk.groundingChunks).getLast? with
          | none => rfl
          | some g => rfl
      | some l =>
          cases hrest : rest.filterMap StreamChunk.groundingChunks with
          | nil => rfl
          | cons x t =>
              rw [List.getLast?_cons_cons, List.getLast?_eq_getLast (x :: t) (by simp)]
              rfl

theorem pairwise_subset_getLast {α : Type} (sup : List (List α)) (g : List α)
    (hpw : sup.Pairwise (fun a b => a ⊆ b)) (hg : sup.getLast? = some g) :
    ∀ l ∈ sup, l ⊆ g := by
  induction sup with
  | nil => intro l hl; cases hl
  | cons x rest ih =>
      rcases List.pairwise_cons.mp hpw with ⟨hx, hrest⟩
      intro l hl
      rcases List.mem_cons.mp hl with rfl | hl
      · cases rest with
        | nil =>
            simp only [List.getLast?_singleton, Option.some.injEq] at hg
            exact hg ▸ List.Subset.refl l
        | cons y t =>
            rw [List.getLast?_cons_cons] at hg
            exact hx g (List.mem_of_mem_getLast? (by simp [hg]))
      · cases rest with
        | nil => cases hl
        | cons y t =>
            rw [List.getLast?_cons_cons] at hg
            exact ih hrest hg l hl

end V2

namespace V2

theorem foldl_accumulate_id (stream : List StreamChunk) (p : ChatMessage) :
    (stream.foldl accumulate p).id = p.id := by
  induction stream generalizing p with
  | nil => rfl
  | cons c rest ih => rw [List.foldl_cons, ih, accumulate_id]

theorem lastSupplied_none_iff (stream : List StreamChunk) :
    lastSupplied stream = none ↔ stream.filterMap StreamChunk.groundingChunks = [] := by
  rw [lastSupplied_eq_getLast?]
  cases h : stream.filterMap StreamChunk.groundingChunks with
  | nil => simp
  | cons x t =>
      rw [List.getLast?_eq_getLast (x :: t) (by simp)]
      simp

end V2

/-- Claim C1: for every finite fragment stream consumed by revision two's
`handleChat`, the placeholder's final text is the ordered concatenation of
the fragments' text fields, and — when the fragments' citation lists are
cumulative (each supplied list is contained in every later supplied list,
the provider's replace-or-extend contract) and individually duplicate-free —
its final grounding-citation list holds exactly the citations supplied by
the fragments, without loss and without duplication.  Messages other than
the placeholder are untouched. -/
theorem handleChat_stream_assembly
    (mid : Nat) (stream : List StreamChunk) (pre post : List ChatMessage) (p : ChatMessage)
    (hp : p.id = mid) (hpre : ∀ m ∈ pre, m.id ≠ mid) (hpost : ∀ m ∈ post, m.id ≠ mid)
    (htext : p.text = "") (hgc : p.groundingChunks = none)
    (hchain : (stream.filterMap StreamChunk.groundingChunks).Pairwise (fun a b => a ⊆ b))
    (hnodup : ∀ l ∈ stream.filterMap StreamChunk.groundingChunks, l.Nodup) :
    ∃ p', V2.handleChat mid stream (pre ++ p :: post) = pre ++ p' :: post ∧
      p'.text = V2.concatTexts stream ∧
      (∀ c : GroundingChunk, c ∈ p'.groundingChunks.getD [] ↔
        ∃ frag ∈ stream, ∃ l, frag.groundingChunks = some l ∧ c ∈ l) ∧
      (p'.groundingChunks.getD []).Nodup ∧
      p'.isLoading = false := by
  refine ⟨{ stream.foldl V2.accumulate p with isLoading := false }, ?_, ?_, ?_, ?_, rfl⟩
  · rw [V2.handleChat,
        V2.foldl_applyChunk_split mid stream pre post p hp hpre hpost,
        V2.settleMessage,
        V2.map_update_split (fun msg => { msg with isLoading := false }) mid pre post
          (stream.foldl V2.accumulate p) (by rw [V2.foldl_accumulate_id, hp]) hpre hpost]
  · show (stream.foldl V2.accumulate p).text = _
    rw [V2.foldl_accumulate_text, htext]
    exact (String.append_assoc "" "" _ ▸ rfl : "" ++ V2.concatTexts stream = V2.concatTexts stream)
  · show ∀ c : GroundingChunk, c ∈ (stream.foldl V2.accumulate p).groundingChunks.getD [] ↔ _
    intro c
    rw [V2.foldl_accumulate_gc, hgc]
    cases hls : V2.lastSupplied stream with
    | none =>
        have hempty := (V2.lastSupplied_none_iff stream).mp hls
        simp only [Option.orElse, Option.getD, List.not_mem_nil]
        constructor
        · intro h; cases h
        · rintro ⟨frag, hfrag, l, hfl, hcl⟩
          have : l ∈ stream.filterMap StreamChunk.groundingChunks :=
            List.mem_filterMap.mpr ⟨frag, hfrag, hfl⟩
          rw [hempty] at this
          cases this
    | some g =>
        have hlast : (stream.filterMap StreamChunk.groundingChunks).getLast? = some g := by
          rw [← V2.lastSupplied_eq_getLast?, hls]
        have hgmem : g ∈ stream.filterMap StreamChunk.groundingChunks :=
          List.mem_of_mem_getLast? (by simp [hlast])
        simp only [Option.orElse, Option.getD]
        constructor
        · intro hcg
          rcases List.mem_filterMap.mp hgmem with ⟨frag, hfrag, hfl⟩
          exact ⟨frag, hfrag, g, hfl, hcg⟩
        · rintro ⟨frag, hfrag, l, hfl, hcl⟩
          have hlmem : l ∈ stream.filterMap StreamChunk.groundingChunks :=
            List.mem_filterMap.mpr ⟨frag, hfrag, hfl⟩
          exact V2.pairwise_subset_getLast _ g hchain hlast l hlmem hcl
  · show ((stream.foldl V2.accumulate p).groundingChunks.getD []).Nodup
    rw [V2.foldl_accumulate_gc, hgc]
    cases hls : V2.lastSupplied stream with
    | none => simp [Option.orElse]
    | some g =>
        have hlast : (stream.filterMap StreamChunk.groundingChunks).getLast? = some g := by
          rw [← V2.lastSupplied_eq_getLast?, hls]
        have hgmem : g ∈ stream.filterMap StreamChunk.groundingChunks :=
          List.mem_of_mem_getLast? (by simp [hlast])
        simpa [Option.orElse] using hnodup g hgmem

/-- Witness for C1: a concrete two-fragment stream with cumulative,
duplicate-free citation lists, consumed into a fresh placeholder. -/
theorem handleChat_stream_assembly_witness :
    ∃ p', V2.handleChat 11
        [{ text := some "Hel", groundingChunks := some [⟨some ⟨"https://a", "A"⟩⟩] },
         { text := some "lo",
           groundingChunks :=
             some [⟨some ⟨"https://a", "A"⟩⟩, ⟨some ⟨"https://b", "B"⟩⟩] }]
        ([] ++ { id := 11, role := ChatRole.model, text := "", isLoading := true } :: []) =
      [] ++ p' :: [] ∧
      p'.text = V2.concatTexts
        [{ text := some "Hel", groundingChunks := some [⟨some ⟨"https://a", "A"⟩⟩] },
         { text := some "lo",
           groundingChunks :=
             some [⟨some ⟨"https://a", "A"⟩⟩, ⟨some ⟨"https://b", "B"⟩⟩] }] ∧
      (∀ c : GroundingChunk, c ∈ p'.groundingChunks.getD [] ↔
        ∃ frag ∈
          ([{ text := some "Hel", groundingChunks := some [⟨some ⟨"https://a", "A"⟩⟩] },
            { text := some "lo",
              groundingChunks :=
                some [⟨some ⟨"https://a", "A"⟩⟩, ⟨some ⟨"https://b", "B"⟩⟩] }] :
            List StreamChunk),
          ∃ l, frag.groundingChunks = some l ∧ c ∈ l) ∧
      (p'.groundingChunks.getD []).Nodup ∧
      p'.isLoading = false :=
  handleChat_stream_assembly 11
    [{ text := some "Hel", groundingChunks := some [⟨some ⟨"https://a", "A"⟩⟩] },
     { text := some "lo",
       groundingChunks :=
         some [⟨some ⟨"https://a", "A"⟩⟩, ⟨some ⟨"https://b", "B"⟩⟩] }]
    [] [] { id := 11, role := ChatRole.model, text := "", isLoading := true }
    rfl (by intro m hm; cases hm) (by intro m hm; cases hm) rfl rfl
    (by decide) (by decide)

/-- The fixed error string yielded by the catch in
`GeminiService.generateContentStream`. -/
def errorText : String := "An error occurred. Please check the console for details."

/-- `GeminiService.generateContentStream`, with the remote provider modeled by
the chunks it delivers before either completing (`fails = false`) or throwing
(`fails = true`): each delivered chunk is forwarded as one fragment, and on a
failure the catch yields one terminal fragment carrying the fixed error
string instead of propagating the exception. -/
def generateContentStream (delivered : List StreamChunk) (fails : Bool) : List StreamChunk :=
  delivered ++ if fails then [{ text := some errorText }] else []

namespace V1

/-- The local accumulators of revision one's `handleChat` loop: `fullText`
(`fullText += chunk.text || ''`) and the `groundingChunks` array
(`push(...chunk.groundingChunks)` whenever the field is defined). -/
structure ChatAccum where
  fullText : String
  groundingChunks : List GroundingChunk
deriving DecidableEq, Repr

/-- One loop iteration's effect on the accumulators. -/
def stepAccum (a : ChatAccum) (chunk : StreamChunk) : ChatAccum :=
  { fullText := a.fullText ++ chunk.text.getD "",
    groundingChunks := a.groundingChunks ++ chunk.groundingChunks.getD [] }

/-- The per-iteration `chatHistory.update` on the placeholder: replace its
text with `fullText` and its citations with the accumulated array. -/
def applyAccum (msg : ChatMessage) (a : ChatAccum) : ChatMessage :=
  { msg with text := a.fullText, groundingChunks := some a.groundingChunks }

/-- The loop of revision one's `handleChat`, tracked on the placeholder
message: the message after the loop, together with its snapshot after each
`chatHistory.update`. -/
def chatLoop (msg : ChatMessage) (a : ChatAccum) :
    List StreamChunk → ChatMessage × List ChatMessage
  | [] => (msg, [])
  | c :: rest =>
      let a' := stepAccum a c
      let m' := applyAccum msg a'
      let r := chatLoop m' a' rest
      (r.1, m' :: r.2)

/-- Revision one's `handleChat` on the placeholder message: run the loop from
the empty accumulators, then clear `isLoading`.  Returns the final message
and the full snapshot sequence (initial placeholder, one snapshot per
fragment, settled message). -/
def handleChat (p : ChatMessage) (stream : List StreamChunk) :
    ChatMessage × List ChatMessage :=
  let r := chatLoop p ⟨"", []⟩ stream
  let final := { r.1 with isLoading := false }
  (final, p :: r.2 ++ [final])

end V1

/-- Claim C6: when the remote provider fails before delivering any content,
`generateContentStream` yields exactly one terminal fragment carrying the
fixed error string (no exception propagates), and the resulting model message
of revision one's `handleChat` contains exactly that fallback string; across
the whole snapshot sequence the loading flag is cleared exactly once (only
the final snapshot is settled). -/
theorem stream_error_degrades (p : ChatMessage)
    (hload : p.isLoading = true) :
    generateContentStream [] true = [{ text := some errorText }] ∧
    (V1.handleChat p (generateContentStream [] true)).1.text = errorText ∧
    (V1.handleChat p (generateContentStream [] true)).1.isLoading = false ∧
    (V1.handleChat p (generateContentStream [] true)).2.countP
      (fun m => !m.isLoading) = 1 := by
  refine ⟨rfl, ?_, rfl, ?_⟩
  · show ("" ++ errorText) = errorText
    simp
  · show List.countP _ [p, _, _] = 1
    have h1 : (!p.isLoading) = false := by rw [hload]; rfl
    have h2 : (!(V1.applyAccum p (V1.stepAccum ⟨"", []⟩ { text := some errorText })).isLoading)
        = false := by
      show (!p.isLoading) = false
      exact h1
    simp [List.countP_cons, h1, h2, List.countP_nil]

/-- Witness for C6: the error path evaluated on a concrete loading
placeholder. -/
theorem stream_error_degrades_witness :
    generateContentStream [] true = [{ text := some errorText }] ∧
    (V1.handleChat { id := 11, role := ChatRole.model, text := "", isLoading := true }
        (generateContentStream [] true)).1.text = errorText ∧
    (V1.handleChat { id := 11, role := ChatRole.model, text := "", isLoading := true }
        (generateContentStream [] true)).1.isLoading = false ∧
    (V1.handleChat { id := 11, role := ChatRole.model, text := "", isLoading := true }
        (generateContentStream [] true)).2.countP (fun m => !m.isLoading) = 1 :=
  stream_error_degrades { id := 11, role := ChatRole.model, text := "", isLoading := true } rfl

/-- A `GenerateVideosOperation` job handle as the orchestrator reads it: the
`done` flag and the optional result locator
`operation.response?.generatedVideos?.[0]?.video?.uri`. -/
structure VideosOperation where
  done : Bool
  uri : Option String := none
deriving DecidableEq, Repr

/-- The `while (!operation.done)` polling loop: starting from the handle
`generateVideo` returned, successive `getVideosOperation` results are read
off the `polls` sequence until a handle reports `done`; `none` when the given
sequence never reports done (the loop would still be running). -/
def pollUntilDone : VideosOperation → List VideosOperation → Option VideosOperation
  | op, [] => if op.done then some op else none
  | op, next :: rest => if op.done then some op else pollUntilDone next rest

namespace V1

/-- The fixed failure string of revision one's video handler. -/
def videoFailureText : String :=
  "Sorry, I was unable to generate the video. Please try again or check the console."

/-- Revision one's `handleVideoGeneration` on the placeholder message, after
job submission: poll until done, then either attach the video fetched from
the result uri (`fetchVideoAsDataUrl`, a gateway routine not part of the
embedded service, abstracted as a function from uri to data url) and clear
loading, or — when the finished handle carries no uri — take the thrown-and-
caught path that sets the fixed failure text and clears loading.  `none` when
the supplied handle sequence never finishes. -/
def handleVideoGeneration (fetchVideoAsDataUrl : String → String)
    (initialOp : VideosOperation) (polls : List VideosOperation)
    (p : ChatMessage) : Option ChatMessage :=
  match pollUntilDone initialOp polls with
  | none => none
  | some finalOp =>
      match finalOp.uri with
      | some uri =>
          some { p with
                   text := "",
                   video := some { dataUrl := fetchVideoAsDataUrl uri,
                                   mimeType := "video/mp4" },
                   isLoading := false }
      | none => some { p with text := videoFailureText, isLoading := false }

end V1

/-- Claim C3: with a job handle sequence whose first two handles report
`done = false` and whose third reports `done = true` with result uri `U`, the
placeholder ends with a video attachment whose bytes come from `U` and with
`isLoading = false`; with a finished handle carrying no uri, it ends with the
fixed failure text and `isLoading = false`. -/
theorem video_flow (fetchVideoAsDataUrl : String → String)
    (o1 o2 o3 o4 : VideosOperation) (U : String) (p q : ChatMessage)
    (h1 : o1.done = false) (h2 : o2.done = false)
    (h3 : o3.done = true) (hU : o3.uri = some U)
    (h4 : o4.done = true) (hnoU : o4.uri = none) :
    V1.handleVideoGeneration fetchVideoAsDataUrl o1 [o2, o3] p =
      some { p with
               text := "",
               video := some { dataUrl := fetchVideoAsDataUrl U, mimeType := "video/mp4" },
               isLoading := false } ∧
    V1.handleVideoGeneration fetchVideoAsDataUrl o4 [] q =
      some { q with text := V1.videoFailureText, isLoading := false } := by
  constructor
  · simp [V1.handleVideoGeneration, pollUntilDone, h1, h2, h3, hU]
  · simp [V1.handleVideoGeneration, pollUntilDone, h4, hnoU]

/-- Witness for C3 at a concrete handle sequence and fetch function. -/
theorem video_flow_witness :
    V1.handleVideoGeneration (fun u => "data:video/mp4;base64," ++ u)
      { done := false } [{ done := false }, { done := true, uri := some "U1" }]
      { id := 11, role := ChatRole.model, text := "🎬", isLoading := true } =
      some { id := 11, role := ChatRole.model, text := "",
             video := some { dataUrl := "data:video/mp4;base64," ++ "U1",
                             mimeType := "video/mp4" },
             isLoading := false } ∧
    V1.handleVideoGeneration (fun u => "data:video/mp4;base64," ++ u)
      { done := true } []
      { id := 13, role := ChatRole.model, text := "🎬", isLoading := true } =
      some { id := 13, role := ChatRole.model, text := V1.videoFailureText,
             isLoading := false } :=
  video_flow (fun u => "data:video/mp4;base64," ++ u)
    { done := false } { done := false } { done := true, uri := some "U1" } { done := true }
    "U1"
    { id := 11, role := ChatRole.model, text := "🎬", isLoading := true }
    { id := 13, role := ChatRole.model, text := "🎬", isLoading := true }
    rfl rfl rfl rfl rfl rfl

/-- The embedding of JavaScript's `String.prototype.trim()`: strip leading
and trailing whitespace.  (Library `String.trim` is not reducible by the
kernel, so we spell the same function out over the character list.) -/
def trimString (s : String) : String :=
  String.mk (((s.toList.dropWhile Char.isWhitespace).reverse.dropWhile
    Char.isWhitespace).reverse)

/-- The embedding of JavaScript's `String.prototype.startsWith(p)` (spelled
over the character lists so the kernel can evaluate it). -/
def startsWithString (s p : String) : Bool :=
  p.toList.isPrefixOf s.toList

/-- The mime-prefix classification
`uploadedFile?.mimeType.startsWith(p) ? uploadedFile! : undefined` used to
fill one attachment slot of the outgoing user message. -/
def slotIf (p : String) (file : Option MediaAttachment) : Option MediaAttachment :=
  match file with
  | some f => if startsWithString f.mimeType p then some f else none
  | none => none

namespace V2

/-- The generic failure string stamped by revision two's `sendMessage` catch. -/
def failureText : String := "I'm sorry, I encountered an error. Please try again."

/-- Component state of revision two (it has no persistence layer). -/
structure AppState where
  chatHistory : List ChatMessage
  isLoading : Bool
  userInput : String
  uploadedFile : Option MediaAttachment
deriving DecidableEq, Repr

/-- The user message revision two's `sendMessage` builds: trimmed text, and
image/video slots classified by mime prefix (no audio slot in this
revision). -/
def mkUserMessage (t1 : Nat) (text : String) (file : Option MediaAttachment) : ChatMessage :=
  { id := t1, role := ChatRole.user, text := text,
    image := slotIf "image/" file, video := slotIf "video/" file }

/-- The history as it stands when the mode handler is dispatched: prior
history with the user message and the loading placeholder appended. -/
def dispatchHistory (t1 t2 : Nat) (s : AppState) : List ChatMessage :=
  s.chatHistory ++
    [mkUserMessage t1 (trimString s.userInput) s.uploadedFile,
     { id := t2 + 1, role := ChatRole.model, text := "", isLoading := true }]

/-- Revision two's `sendMessage`.  `t1`, `t2` are its two `Date.now()`
readings.  The dispatched mode handler (chat, image or video) is abstracted
as a function from the placeholder id and the dispatched history to the
history it leaves behind, paired with `some e` when it threw.  The guard
returns the state unchanged; otherwise the user message and placeholder are
appended and input and upload cleared, the handler runs inside try/catch —
the catch stamps the generic failure text on the placeholder and clears its
loading flag — and the `finally` clears the global loading flag. -/
def sendMessage (t1 t2 : Nat)
    (handler : Nat → List ChatMessage → List ChatMessage × Option Unit)
    (s : AppState) : AppState :=
  if (trimString s.userInput = "" ∧ s.uploadedFile = none) ∨ s.isLoading = true then s
  else
    let modelMessageId := t2 + 1
    let r := handler modelMessageId (dispatchHistory t1 t2 s)
    let afterCatch :=
      if r.2.isSome then
        r.1.map fun msg =>
          if msg.id = modelMessageId then
            { msg with text := failureText, isLoading := false }
          else msg
      else r.1
    { chatHistory := afterCatch, isLoading := false, userInput := "",
      uploadedFile := none }

end V2

/-- Claim C2: whatever the mode, if the dispatched handler throws during
`sendMessage` (revision two, the revision carrying the try/catch the claim
cites), then after `sendMessage` completes the placeholder carries the
generic failure text with `isLoading = false`, and the global loading flag is
false.  The handler is universally quantified, so this covers the chat,
image and video handlers alike; `hkeep` records that the handler left the
placeholder in the history, as every handler in the source does. -/
theorem dispatch_error_fails_gracefully (t1 t2 : Nat)
    (handler : Nat → List ChatMessage → List ChatMessage × Option Unit)
    (s : V2.AppState)
    (hguard : ¬ ((trimString s.userInput = "" ∧ s.uploadedFile = none) ∨ s.isLoading = true))
    (herr : (handler (t2 + 1) (V2.dispatchHistory t1 t2 s)).2.isSome = true)
    (hkeep : ∃ m ∈ (handler (t2 + 1) (V2.dispatchHistory t1 t2 s)).1, m.id = t2 + 1) :
    (∃ m ∈ (V2.sendMessage t1 t2 handler s).chatHistory,
        m.id = t2 + 1 ∧ m.text = V2.failureText ∧ m.isLoading = false) ∧
    (∀ m ∈ (V2.sendMessage t1 t2 handler s).chatHistory,
        m.id = t2 + 1 → m.text = V2.failureText ∧ m.isLoading = false) ∧
    (V2.sendMessage t1 t2 handler s).isLoading = false := by
  have hsend : V2.sendMessage t1 t2 handler s =
      { chatHistory := (handler (t2 + 1) (V2.dispatchHistory t1 t2 s)).1.map fun msg =>
          if msg.id = t2 + 1 then
            { msg with text := V2.failureText, isLoading := false }
          else msg,
        isLoading := false, userInput := "", uploadedFile := none } := by
    rw [V2.sendMessage, if_neg hguard]
    simp only [herr, if_true]
  rw [hsend]
  refine ⟨?_, ?_, rfl⟩
  · rcases hkeep with ⟨m, hm, hmid⟩
    refine ⟨{ m with text := V2.failureText, isLoading := false },
      List.mem_map.mpr ⟨m, hm, by rw [if_pos hmid]⟩, hmid, rfl, rfl⟩
  · intro m' hm' hid'
    rcases List.mem_map.mp hm' with ⟨m, hm, hfm⟩
    by_cases hmid : m.id = t2 + 1
    · rw [if_pos hmid] at hfm
      rw [← hfm]
      exact ⟨rfl, rfl⟩
    · rw [if_neg hmid] at hfm
      rw [← hfm] at hid'
      exact absurd hid' hmid

/-- Witness for C2: a throwing handler that leaves the dispatched history in
place, run on a concrete idle state holding the input "hi". -/
theorem dispatch_error_fails_gracefully_witness :
    (∃ m ∈ (V2.sendMessage 10 10 (fun _ h => (h, some ()))
        { chatHistory := [], isLoading := false, userInput := "hi",
          uploadedFile := none }).chatHistory,
      m.id = 10 + 1 ∧ m.text = V2.failureText ∧ m.isLoading = false) ∧
    (∀ m ∈ (V2.sendMessage 10 10 (fun _ h => (h, some ()))
        { chatHistory := [], isLoading := false, userInput := "hi",
          uploadedFile := none }).chatHistory,
      m.id = 10 + 1 → m.text = V2.failureText ∧ m.isLoading = false) ∧
    (V2.sendMessage 10 10 (fun _ h => (h, some ()))
        { chatHistory := [], isLoading := false, userInput := "hi",
          uploadedFile := none }).isLoading = false :=
  dispatch_error_fails_gracefully 10 10 (fun _ h => (h, some ()))
    { chatHistory := [], isLoading := false, userInput := "hi", uploadedFile := none }
    (by decide) rfl
    ⟨{ id := 10 + 1, role := ChatRole.model, text := "", isLoading := true },
     by decide, rfl⟩

/-- Claim C5: revision two's `sendMessage` leaves the state (history
included) unchanged exactly when the trimmed input is empty with no pending
upload, or a request is already in flight. -/
theorem sendMessage_noop_iff (t1 t2 : Nat)
    (handler : Nat → List ChatMessage → List ChatMessage × Option Unit)
    (s : V2.AppState) :
    V2.sendMessage t1 t2 handler s = s ↔
      ((trimString s.userInput = "" ∧ s.uploadedFile = none) ∨ s.isLoading = true) := by
  constructor
  · intro h
    by_contra hg
    rw [V2.sendMessage, if_neg hg] at h
    rw [not_or] at hg
    rcases hg with ⟨hne, _⟩
    have hu : s.userInput = "" := (congrArg V2.AppState.userInput h).symm ▸ rfl
    have hf : s.uploadedFile = none := (congrArg V2.AppState.uploadedFile h).symm ▸ rfl
    exact hne ⟨by rw [hu]; rfl, hf⟩
  · intro h
    rw [V2.sendMessage, if_pos h]

/-- Everything after the first comma of the character list (the comma
included is dropped). -/
def afterFirstComma : List Char → List Char
  | [] => []
  | c :: rest => if c = ',' then rest else afterFirstComma rest

/-- `stripDataUrlPrefix`:
`dataUrl.substring(dataUrl.indexOf(',') + 1)` — everything after the first
comma; without a comma, `indexOf` gives -1 and the whole string returns. -/
def stripDataUrl (dataUrl : String) : String :=
  if dataUrl.toList.contains ',' then String.mk (afterFirstComma dataUrl.toList)
  else dataUrl

/-- One inline-data part sent to the gateway:
`{ data: stripDataUrlPrefix(media.dataUrl), mimeType: media.mimeType }`. -/
structure MediaPart where
  data : String
  mimeType : String
deriving DecidableEq, Repr

namespace V1

/-- The user message revision one's `sendMessage` builds: trimmed text and
the image/video/audio slots classified by mime prefix. -/
def mkUserMessage (now : Nat) (text : String) (file : Option MediaAttachment) : ChatMessage :=
  { id := now, role := ChatRole.user, text := text,
    image := slotIf "image/" file, video := slotIf "video/" file,
    audio := slotIf "audio/" file }

/-- `userMessage.image || userMessage.video || userMessage.audio` in
revision one's `handleChat`. -/
def selectedMedia (m : ChatMessage) : Option MediaAttachment :=
  (m.image.orElse fun _ => m.video).orElse fun _ => m.audio

/-- The `mediaParts` value revision one's `handleChat` transmits: a single
inline part for the selected attachment, or nothing. -/
def mediaParts (m : ChatMessage) : List MediaPart :=
  match selectedMedia m with
  | some media => [{ data := stripDataUrl media.dataUrl, mimeType := media.mimeType }]
  | none => []

end V1

/-- Claim C10: a pending upload whose mime type starts with none of
`image/`, `video/`, `audio/` is silently discarded — the built user message
carries no attachment — and when a message carries several attachment slots,
exactly one media part is transmitted, chosen image over video over audio. -/
theorem attachment_classification (now : Nat) (text : String) (f : MediaAttachment)
    (hf1 : startsWithString f.mimeType "image/" = false)
    (hf2 : startsWithString f.mimeType "video/" = false)
    (hf3 : startsWithString f.mimeType "audio/" = false)
    (m : ChatMessage) (a : MediaAttachment) :
    ((V1.mkUserMessage now text (some f)).image = none ∧
     (V1.mkUserMessage now text (some f)).video = none ∧
     (V1.mkUserMessage now text (some f)).audio = none) ∧
    (m.image = some a →
      V1.mediaParts m = [{ data := stripDataUrl a.dataUrl, mimeType := a.mimeType }]) ∧
    (m.image = none → m.video = some a →
      V1.mediaParts m = [{ data := stripDataUrl a.dataUrl, mimeType := a.mimeType }]) ∧
    (m.image = none → m.video = none → m.audio = some a →
      V1.mediaParts m = [{ data := stripDataUrl a.dataUrl, mimeType := a.mimeType }]) := by
  refine ⟨⟨?_, ?_, ?_⟩, ?_, ?_, ?_⟩
  · simp [V1.mkUserMessage, slotIf, hf1]
  · simp [V1.mkUserMessage, slotIf, hf2]
  · simp [V1.mkUserMessage, slotIf, hf3]
  · intro h1
    simp [V1.mediaParts, V1.selectedMedia, h1, Option.orElse]
  · intro h1 h2
    simp [V1.mediaParts, V1.selectedMedia, h1, h2, Option.orElse]
  · intro h1 h2 h3
    simp [V1.mediaParts, V1.selectedMedia, h1, h2, h3, Option.orElse]

/-- Witness for C10: a pdf upload is discarded, and a message carrying both
an image and a video slot transmits the image part only. -/
theorem attachment_classification_witness :
    ((V1.mkUserMessage 7 "look"
        (some { dataUrl := "data:application/pdf;base64,AAA",
                mimeType := "application/pdf" })).image = none ∧
     (V1.mkUserMessage 7 "look"
        (some { dataUrl := "data:application/pdf;base64,AAA",
                mimeType := "application/pdf" })).video = none ∧
     (V1.mkUserMessage 7 "look"
        (some { dataUrl := "data:application/pdf;base64,AAA",
                mimeType := "application/pdf" })).audio = none) ∧
    V1.mediaParts
        { id := 7, role := ChatRole.user, text := "look",
          image := some { dataUrl := "data:image/png;base64,III",
                          mimeType := "image/png" },
          video := some { dataUrl := "data:video/mp4;base64,VVV",
                          mimeType := "video/mp4" } } =
      [{ data := stripDataUrl "data:image/png;base64,III", mimeType := "image/png" }] :=
  ⟨(attachment_classification 7 "look"
      { dataUrl := "data:application/pdf;base64,AAA", mimeType := "application/pdf" }
      (by decide) (by decide) (by decide)
      { id := 7, role := ChatRole.user, text := "look",
        image := some { dataUrl := "data:image/png;base64,III", mimeType := "image/png" },
        video := some { dataUrl := "data:video/mp4;base64,VVV", mimeType := "video/mp4" } }
      { dataUrl := "data:image/png;base64,III", mimeType := "image/png" }).1,
   (attachment_classification 7 "look"
      { dataUrl := "data:application/pdf;base64,AAA", mimeType := "application/pdf" }
      (by decide) (by decide) (by decide)
      { id := 7, role := ChatRole.user, text := "look",
        image := some { dataUrl := "data:image/png;base64,III", mimeType := "image/png" },
        video := some { dataUrl := "data:video/mp4;base64,VVV", mimeType := "video/mp4" } }
      { dataUrl := "data:image/png;base64,III", mimeType := "image/png" }).2.1 rfl⟩

/-!
An operational model of the orchestrator for the reachability invariants:
every signal mutation that touches the conversation becomes one explicit
step, including the micro-steps inside an in-flight `sendMessage` (streamed
chunk arrival, status-text updates, settling, the `finally`).  A single
in-flight exchange is represented by `inFlight = some modelMessageId`; the
cooperative single-threaded model means steps never interleave within one
`chatHistory.update`.
-/

/-- State of the operational model.  `inFlight = some mid` stands for "the
global `isLoading` signal is set and the current exchange's placeholder id is
`mid`". -/
structure MachineState where
  chatHistory : List ChatMessage
  inFlight : Option Nat
  userInput : String
  uploadedFile : Option MediaAttachment
  storage : Option (List SavedMessage)
deriving DecidableEq, Repr

/-- The UI-triggered operations and `sendMessage` micro-steps. -/
inductive Op where
  | setInput (text : String)
  | setUpload (file : Option MediaAttachment)
  | loadHistory (now : Nat)
  | newConversation
  | sendStart (t1 t2 : Nat)
  | streamChunk (chunk : StreamChunk)
  | setText (text : String)
  | settle
  | settleWith (text : String) (img vid : Option MediaAttachment)
  | sendEnd
  | saveHistory
  | setPlaying (mid : Nat) (b : Bool)
deriving DecidableEq, Repr

/-- `chatHistory.update(history => history.map(m => m.id === mid ? f(m) : m))`. -/
def updateById (mid : Nat) (f : ChatMessage → ChatMessage)
    (history : List ChatMessage) : List ChatMessage :=
  history.map fun m => if m.id = mid then f m else m

/-- One step of the operational model.  Guarded operations that the source
cannot perform in the current state (polling with no exchange in flight,
`sendMessage` under the guard, loading outside the constructor) leave the
state unchanged.

- `setInput`/`setUpload`: typing and file selection.
- `loadHistory`: the constructor's `loadChatHistory` (only outside a send).
- `newConversation`: `startNewConversation`.
- `sendStart t1 t2`: the front of `sendMessage` — guard, user message
  (id `t1`), placeholder (id `t2 + 1`), input/upload cleared, global flag
  raised.
- `streamChunk`: one streamed fragment folded into the placeholder.
- `setText`: a status-text update of the video handler.
- `settle`: the handler's final `isLoading := false` update.
- `settleWith`: an image/video handler completion or failure update (text,
  optional attachments, loading cleared).
- `sendEnd`: the `finally`/catch epilogue dropping the global flag; by then
  every code path has already settled the placeholder, so it fires only when
  no message is loading.
- `saveHistory`: the persistence effect mirroring history to storage.
- `setPlaying`: `playAudio`'s `isPlayingAudio` updates. -/
def stepOp : Op → MachineState → MachineState
  | .setInput t, s => { s with userInput := t }
  | .setUpload f, s => { s with uploadedFile := f }
  | .loadHistory now, s =>
      if s.inFlight = none then
        match s.storage with
        | some saved => { s with chatHistory := V1.loadChatHistory now saved }
        | none => s
      else s
  | .newConversation, s =>
      { s with chatHistory := [], userInput := "", uploadedFile := none,
               storage := none }
  | .sendStart t1 t2, s =>
      if (trimString s.userInput = "" ∧ s.uploadedFile = none) ∨ s.inFlight ≠ none then s
      else
        { s with
            chatHistory := s.chatHistory ++
              [V1.mkUserMessage t1 (trimString s.userInput) s.uploadedFile,
               { id := t2 + 1, role := ChatRole.model, text := "", isLoading := true }],
            inFlight := some (t2 + 1), userInput := "", uploadedFile := none }
  | .streamChunk chunk, s =>
      match s.inFlight with
      | some mid => { s with chatHistory := V2.applyChunk mid chunk s.chatHistory }
      | none => s
  | .setText t, s =>
      match s.inFlight with
      | some mid =>
          { s with chatHistory :=
              updateById mid (fun m => { m with text := t }) s.chatHistory }
      | none => s
  | .settle, s =>
      match s.inFlight with
      | some mid =>
          { s with chatHistory :=
              updateById mid (fun m => { m with isLoading := false }) s.chatHistory }
      | none => s
  | .settleWith t img vid, s =>
      match s.inFlight with
      | some mid =>
          { s with chatHistory :=
              updateById mid (fun m =>
                { m with text := t,
                         image := img.orElse fun _ => m.image,
                         video := vid.orElse fun _ => m.video,
                         isLoading := false }) s.chatHistory }
      | none => s
  | .sendEnd, s =>
      match s.inFlight with
      | some _ =>
          if s.chatHistory.all (fun m => !m.isLoading) then { s with inFlight := none }
          else s
      | none => s
  | .saveHistory, s => { s with storage := some (V1.saveChatHistory s.chatHistory) }
  | .setPlaying mid b, s =>
      { s with chatHistory :=
          updateById mid (fun m => { m with isPlayingAudio := b }) s.chatHistory }

/-- The component's initial state: empty conversation, nothing in flight. -/
def initState : MachineState :=
  { chatHistory := [], inFlight := none, userInput := "", uploadedFile := none,
    storage := none }

/-- Run a sequence of operations from the initial state; every reachable
state is `run ops` for some `ops`. -/
def run (ops : List Op) : MachineState :=
  ops.foldl (fun s o => stepOp o s) initState

/-- Number of messages whose `isLoading` flag is set. -/
def loadingCount (history : List ChatMessage) : Nat :=
  history.countP fun m => m.isLoading

/-- The loading invariant: at most one message is loading; outside an
exchange no message is loading; during one, any loading message is the
current placeholder. -/
def LoadingInv (s : MachineState) : Prop :=
  loadingCount s.chatHistory ≤ 1 ∧
  (s.inFlight = none → ∀ m ∈ s.chatHistory, m.isLoading = false) ∧
  ∀ mid, s.inFlight = some mid → ∀ m ∈ s.chatHistory, m.isLoading = true → m.id = mid

theorem loadingCount_updateById_le (mid : Nat) (f : ChatMessage → ChatMessage)
    (l : List ChatMessage)
    (hfl : ∀ m, (f m).isLoading = true → m.isLoading = true) :
    loadingCount (updateById mid f l) ≤ loadingCount l := by
  rw [loadingCount, loadingCount, updateById, List.countP_map]
  refine List.countP_mono_left fun m hm hp => ?_
  by_cases hid : m.id = mid
  · exact hfl m (by simpa [Function.comp, hid] using hp)
  · simpa [Function.comp, hid] using hp

theorem updateById_all_false (mid : Nat) (f : ChatMessage → ChatMessage)
    (l : List ChatMessage)
    (hf0 : ∀ m, m.isLoading = false → (f m).isLoading = false)
    (hall : ∀ m ∈ l, m.isLoading = false) :
    ∀ m ∈ updateById mid f l, m.isLoading = false := by
  intro m hm
  rcases List.mem_map.mp hm with ⟨m₀, h₀, rfl⟩
  by_cases hid : m₀.id = mid
  · simpa [hid] using hf0 m₀ (hall m₀ h₀)
  · simpa [hid] using hall m₀ h₀

theorem updateById_loading_id (k : Nat) (f : ChatMessage → ChatMessage)
    (l : List ChatMessage)
    (hfid : ∀ m, (f m).id = m.id)
    (hfl : ∀ m, (f m).isLoading = true → m.isLoading = true)
    (mid : Nat) (hinv : ∀ m ∈ l, m.isLoading = true → m.id = mid) :
    ∀ m ∈ updateById k f l, m.isLoading = true → m.id = mid := by
  intro m hm hml
  rcases List.mem_map.mp hm with ⟨m₀, h₀, rfl⟩
  by_cases hid : m₀.id = k
  · rw [if_pos hid] at hml ⊢
    rw [hfid m₀]
    exact hinv m₀ h₀ (hfl m₀ hml)
  · rw [if_neg hid] at hml ⊢
    exact hinv m₀ h₀ hml

theorem loadingCount_eq_zero (l : List ChatMessage)
    (hall : ∀ m ∈ l, m.isLoading = false) : loadingCount l = 0 := by
  rw [loadingCount, List.countP_eq_zero]
  intro m hm
  simp [hall m hm]

theorem stepOp_loadingInv (o : Op) (s : MachineState) (h : LoadingInv s) :
    LoadingInv (stepOp o s) := by
  obtain ⟨hist, flight, ui, uf, st⟩ := s
  obtain ⟨hc, hn, hsome⟩ := h
  cases o with
  | setInput t => exact ⟨hc, hn, hsome⟩
  | setUpload f => exact ⟨hc, hn, hsome⟩
  | saveHistory => exact ⟨hc, hn, hsome⟩
  | newConversation =>
      exact ⟨le_trans (le_of_eq (loadingCount_eq_zero []
          (fun m hm => absurd hm (List.not_mem_nil m)))) (Nat.zero_le 1),
        fun _ m hm => absurd hm (List.not_mem_nil m),
        fun mid _ m hm => absurd hm (List.not_mem_nil m)⟩
  | loadHistory now =>
      cases flight with
      | some mid => exact ⟨hc, hn, hsome⟩
      | none =>
          cases st with
          | none => exact ⟨hc, hn, hsome⟩
          | some saved =>
              exact ⟨le_trans (le_of_eq (loadingCount_eq_zero
                  (V1.loadChatHistory now saved)
                  (fun m hm => (V1.loadChatHistory_flags now saved m hm).1)))
                  (Nat.zero_le 1),
                fun _ m hm => (V1.loadChatHistory_flags now saved m hm).1,
                fun mid heq => Option.noConfusion heq⟩
  | sendStart t1 t2 =>
      simp only [stepOp]
      by_cases hg : (trimString ui = "" ∧ uf = none) ∨
          (⟨hist, flight, ui, uf, st⟩ : MachineState).inFlight ≠ none
      · rw [if_pos hg]
        exact ⟨hc, hn, hsome⟩
      · rw [if_neg hg]
        have hflight : flight = none := by
          rcases not_or.mp hg with ⟨_, h2⟩
          exact not_not.mp h2
        have hall : ∀ m ∈ hist, m.isLoading = false := hn hflight
        refine ⟨?_, fun he => Option.noConfusion he, ?_⟩
        · show List.countP _ (hist ++ _) ≤ 1
          rw [List.countP_append]
          have h0 : List.countP (fun m => m.isLoading) hist = 0 :=
            loadingCount_eq_zero hist hall
          rw [h0]
          simp [V1.mkUserMessage]
        · intro mid heq m hm hml
          have hmid : mid = t2 + 1 := (Option.some.inj heq).symm
          rcases List.mem_append.mp hm with hm | hm
          · exact absurd hml (by simp [hall m hm])
          · rcases List.mem_cons.mp hm with rfl | hm
            · exact absurd hml (by simp [V1.mkUserMessage])
            · rcases List.mem_cons.mp hm with rfl | hm
              · simp [hmid]
              · cases hm
  | streamChunk c =>
      cases flight with
      | none => exact ⟨hc, hn, hsome⟩
      | some mid =>
          refine ⟨?_, fun he => Option.noConfusion he, ?_⟩
          · exact le_trans
              (loadingCount_updateById_le mid (fun m => V2.accumulate m c) hist
                (fun m hm => hm)) hc
          · intro mid' heq
            have hmid : mid' = mid := (Option.some.inj heq).symm
            subst hmid
            exact updateById_loading_id mid' (fun m => V2.accumulate m c) hist
              (fun m => rfl) (fun m hm => hm) mid' (hsome mid' rfl)
  | setText t =>
      cases flight with
      | none => exact ⟨hc, hn, hsome⟩
      | some mid =>
          refine ⟨?_, fun he => Option.noConfusion he, ?_⟩
          · exact le_trans
              (loadingCount_updateById_le mid _ hist (fun m hm => hm)) hc
          · intro mid' heq
            have hmid : mid' = mid := (Option.some.inj heq).symm
            subst hmid
            exact updateById_loading_id mid' (fun m => { m with text := t }) hist
              (fun m => rfl) (fun m hm => hm) mid' (hsome mid' rfl)
  | settle =>
      cases flight with
      | none => exact ⟨hc, hn, hsome⟩
      | some mid =>
          refine ⟨?_, fun he => Option.noConfusion he, ?_⟩
          · exact le_trans
              (loadingCount_updateById_le mid _ hist
                (fun m hm => absurd hm (by simp))) hc
          · intro mid' heq
            have hmid : mid' = mid := (Option.some.inj heq).symm
            subst hmid
            exact updateById_loading_id mid' (fun m => { m with isLoading := false }) hist
              (fun m => rfl) (fun m hm => by simp at hm) mid' (hsome mid' rfl)
  | settleWith t img vid =>
      cases flight with
      | none => exact ⟨hc, hn, hsome⟩
      | some mid =>
          refine ⟨?_, fun he => Option.noConfusion he, ?_⟩
          · exact le_trans
              (loadingCount_updateById_le mid _ hist
                (fun m hm => absurd hm (by simp))) hc
          · intro mid' heq
            have hmid : mid' = mid := (Option.some.inj heq).symm
            subst hmid
            exact updateById_loading_id mid'
              (fun m =>
                { m with text := t,
                         image := img.orElse fun _ => m.image,
                         video := vid.orElse fun _ => m.video,
                         isLoading := false }) hist
              (fun m => rfl) (fun m hm => by simp at hm) mid' (hsome mid' rfl)
  | sendEnd =>
      cases flight with
      | none => exact ⟨hc, hn, hsome⟩
      | some mid =>
          simp only [stepOp]
          by_cases hall : hist.all (fun m => !m.isLoading) = true
          · rw [if_pos hall]
            refine ⟨hc, ?_, fun mid' heq => absurd heq (by simp)⟩
            intro _ m hm
            simpa using List.all_eq_true.mp hall m hm
          · rw [if_neg hall]
            exact ⟨hc, hn, hsome⟩
  | setPlaying mid b =>
      refine ⟨?_, ?_, ?_⟩
      · exact le_trans
          (loadingCount_updateById_le mid _ hist (fun m hm => hm)) hc
      · intro he
        exact updateById_all_false mid (fun m => { m with isPlayingAudio := b }) hist
          (fun m hm => hm) (hn he)
      · intro mid' heq
        exact updateById_loading_id mid (fun m => { m with isPlayingAudio := b }) hist
          (fun m => rfl) (fun m hm => hm) mid' (hsome mid' heq)

theorem loadingInv_init : LoadingInv initState :=
  ⟨le_trans (le_of_eq (loadingCount_eq_zero []
      (fun m hm => absurd hm (List.not_mem_nil m)))) (Nat.zero_le 1),
   fun _ m hm => absurd hm (List.not_mem_nil m),
   fun _ heq => Option.noConfusion heq⟩

theorem loadingInv_run (ops : List Op) : LoadingInv (run ops) := by
  suffices h : ∀ (l : List Op) (s : MachineState), LoadingInv s →
      LoadingInv (l.foldl (fun s o => stepOp o s) s) from
    h ops initState loadingInv_init
  intro l
  induction l with
  | nil => exact fun s hs => hs
  | cons o rest ih => exact fun s hs => ih (stepOp o s) (stepOp_loadingInv o s hs)


theorem stepOp_no_reload (o : Op) (s : MachineState) (i : Nat)
    (m m' : ChatMessage)
    (h : s.chatHistory.get? i = some m)
    (h' : (stepOp o s).chatHistory.get? i = some m')
    (hml : m'.isLoading = true) : m.isLoading = true := by
  obtain ⟨hist, flight, ui, uf, st⟩ := s
  cases o with
  | setInput t =>
      have h2 : hist.get? i = some m' := h'
      rw [Option.some.inj (h.symm.trans h2)]
      exact hml
  | setUpload f =>
      have h2 : hist.get? i = some m' := h'
      rw [Option.some.inj (h.symm.trans h2)]
      exact hml
  | saveHistory =>
      have h2 : hist.get? i = some m' := h'
      rw [Option.some.inj (h.symm.trans h2)]
      exact hml
  | newConversation =>
      have h2 : (List.nil (α := ChatMessage)).get? i = some m' := h'
      rw [List.get?_eq_none.mpr (by simp)] at h2
      exact Option.noConfusion h2
  | loadHistory now =>
      cases flight with
      | some mid =>
          have h2 : hist.get? i = some m' := h'
          rw [Option.some.inj (h.symm.trans h2)]
          exact hml
      | none =>
          cases st with
          | none =>
              have h2 : hist.get? i = some m' := h'
              rw [Option.some.inj (h.symm.trans h2)]
              exact hml
          | some saved =>
              have h2 : (V1.loadChatHistory now saved).get? i = some m' := h'
              have hm' := (V1.loadChatHistory_flags now saved m' (List.get?_mem h2)).1
              exact absurd (hm'.symm.trans hml) (by decide)
  | sendStart t1 t2 =>
      by_cases hg : (trimString ui = "" ∧ uf = none) ∨
          (⟨hist, flight, ui, uf, st⟩ : MachineState).inFlight ≠ none
      · have hstep : stepOp (Op.sendStart t1 t2) ⟨hist, flight, ui, uf, st⟩ =
            ⟨hist, flight, ui, uf, st⟩ := by
          simp only [stepOp]
          rw [if_pos hg]
        rw [hstep] at h'
        rw [Option.some.inj (h.symm.trans h')]
        exact hml
      · have hstep : stepOp (Op.sendStart t1 t2) ⟨hist, flight, ui, uf, st⟩ =
            ⟨hist ++
              [V1.mkUserMessage t1 (trimString ui) uf,
               { id := t2 + 1, role := ChatRole.model, text := "", isLoading := true }],
             some (t2 + 1), "", none, st⟩ := by
          simp only [stepOp]
          rw [if_neg hg]
        rw [hstep] at h'
        have hilt : i < hist.length := by
          by_contra hge
          rw [List.get?_eq_none.mpr (Nat.le_of_not_lt hge)] at h
          exact Option.noConfusion h
        have h2 : (hist ++
            [V1.mkUserMessage t1 (trimString ui) uf,
             { id := t2 + 1, role := ChatRole.model, text := "", isLoading := true }]).get? i
            = hist.get? i := List.get?_append hilt
        rw [h2] at h'
        rw [Option.some.inj (h.symm.trans h')]
        exact hml
  | streamChunk c =>
      cases flight with
      | none =>
          have h2 : hist.get? i = some m' := h'
          rw [Option.some.inj (h.symm.trans h2)]
          exact hml
      | some mid =>
          have h2 : (updateById mid (fun m => V2.accumulate m c) hist).get? i = some m' := h'
          rw [updateById, List.get?_map, h] at h2
          have hm' : (if m.id = mid then V2.accumulate m c else m) = m' :=
            Option.some.inj h2
          by_cases hid : m.id = mid
          · rw [if_pos hid] at hm'
            rw [← hm'] at hml
            exact hml
          · rw [if_neg hid] at hm'
            rw [hm']
            exact hml
  | setText t =>
      cases flight with
      | none =>
          have h2 : hist.get? i = some m' := h'
          rw [Option.some.inj (h.symm.trans h2)]
          exact hml
      | some mid =>
          have h2 : (updateById mid (fun m => { m with text := t }) hist).get? i = some m' := h'
          rw [updateById, List.get?_map, h] at h2
          have hm' : (if m.id = mid then ({ m with text := t } : ChatMessage) else m) = m' :=
            Option.some.inj h2
          by_cases hid : m.id = mid
          · rw [if_pos hid] at hm'
            rw [← hm'] at hml
            exact hml
          · rw [if_neg hid] at hm'
            rw [hm']
            exact hml
  | settle =>
      cases flight with
      | none =>
          have h2 : hist.get? i = some m' := h'
          rw [Option.some.inj (h.symm.trans h2)]
          exact hml
      | some mid =>
          have h2 : (updateById mid (fun m => { m with isLoading := false }) hist).get? i
              = some m' := h'
          rw [updateById, List.get?_map, h] at h2
          have hm' : (if m.id = mid then ({ m with isLoading := false } : ChatMessage) else m)
              = m' := Option.some.inj h2
          by_cases hid : m.id = mid
          · rw [if_pos hid] at hm'
            rw [← hm'] at hml
            exact absurd hml (by simp)
          · rw [if_neg hid] at hm'
            rw [hm']
            exact hml
  | settleWith t img vid =>
      cases flight with
      | none =>
          have h2 : hist.get? i = some m' := h'
          rw [Option.some.inj (h.symm.trans h2)]
          exact hml
      | some mid =>
          have h2 : (updateById mid (fun m =>
              { m with text := t,
                       image := img.orElse fun _ => m.image,
                       video := vid.orElse fun _ => m.video,
                       isLoading := false }) hist).get? i = some m' := h'
          rw [updateById, List.get?_map, h] at h2
          have hm' : (if m.id = mid then
              ({ m with text := t,
                        image := img.orElse fun _ => m.image,
                        video := vid.orElse fun _ => m.video,
                        isLoading := false } : ChatMessage) else m) = m' :=
            Option.some.inj h2
          by_cases hid : m.id = mid
          · rw [if_pos hid] at hm'
            rw [← hm'] at hml
            exact absurd hml (by simp)
          · rw [if_neg hid] at hm'
            rw [hm']
            exact hml
  | sendEnd =>
      cases flight with
      | none =>
          have h2 : hist.get? i = some m' := h'
          rw [Option.some.inj (h.symm.trans h2)]
          exact hml
      | some mid =>
          by_cases hall : hist.all (fun m => !m.isLoading) = true
          · have hstep : stepOp Op.sendEnd ⟨hist, some mid, ui, uf, st⟩ =
                ⟨hist, none, ui, uf, st⟩ := by
              simp only [stepOp]
              rw [if_pos hall]
            rw [hstep] at h'
            rw [Option.some.inj (h.symm.trans h')]
            exact hml
          · have hstep : stepOp Op.sendEnd ⟨hist, some mid, ui, uf, st⟩ =
                ⟨hist, some mid, ui, uf, st⟩ := by
              simp only [stepOp]
              rw [if_neg hall]
            rw [hstep] at h'
            rw [Option.some.inj (h.symm.trans h')]
            exact hml
  | setPlaying mid b =>
      have h2 : (updateById mid (fun m => { m with isPlayingAudio := b }) hist).get? i
          = some m' := h'
      rw [updateById, List.get?_map, h] at h2
      have hm' : (if m.id = mid then ({ m with isPlayingAudio := b } : ChatMessage) else m)
          = m' := Option.some.inj h2
      by_cases hid : m.id = mid
      · rw [if_pos hid] at hm'
        rw [← hm'] at hml
        exact hml
      · rw [if_neg hid] at hm'
        rw [hm']
        exact hml

/-- Claim C7: in every reachable state at most one message carries
`isLoading = true` (the in-flight placeholder; none between exchanges), and
the flag moves only forward: whatever operation fires next, the message at
any position is loading afterwards only if it was already loading before —
once settled, no operation sets a message back to loading (fresh placeholders
occupy fresh positions). -/
theorem loading_state_machine (ops : List Op) (o : Op) (i : Nat)
    (m m' : ChatMessage)
    (h : (run ops).chatHistory.get? i = some m)
    (h' : (stepOp o (run ops)).chatHistory.get? i = some m')
    (hml : m'.isLoading = true) :
    loadingCount (run ops).chatHistory ≤ 1 ∧ m.isLoading = true :=
  ⟨(loadingInv_run ops).1, stepOp_no_reload o (run ops) i m m' h h' hml⟩

/-- Witness for C7: after one send is started, a streamed chunk keeps the
placeholder (position 1) loading; the reachable state has exactly one loading
message. -/
theorem loading_state_machine_witness :
    loadingCount (run [Op.setInput "hi", Op.sendStart 5 5]).chatHistory ≤ 1 ∧
    ({ id := 6, role := ChatRole.model, text := "", isLoading := true } :
      ChatMessage).isLoading = true :=
  loading_state_machine [Op.setInput "hi", Op.sendStart 5 5]
    (Op.streamChunk { text := some "x" }) 1
    { id := 6, role := ChatRole.model, text := "", isLoading := true }
    { id := 6, role := ChatRole.model, text := "x", isLoading := true }
    (by decide) (by decide) rfl

/-- Counterexample to C8 as stated: ids come from `Date.now()`, so two sends
whose clock readings fall in the same millisecond assign colliding ids.  The
operation sequence below reaches a conversation whose ids are
1000, 1001, 1000, 1001 — neither unique nor strictly increasing. -/
theorem ids_can_collide :
    ¬ ((((run [Op.setInput "hi", Op.sendStart 1000 1000, Op.settle, Op.sendEnd,
            Op.setInput "ho", Op.sendStart 1000 1000]).chatHistory.map
            ChatMessage.id).Nodup) ∧
       List.Pairwise (fun a b => a < b)
         ((run [Op.setInput "hi", Op.sendStart 1000 1000, Op.settle, Op.sendEnd,
            Op.setInput "ho", Op.sendStart 1000 1000]).chatHistory.map
            ChatMessage.id)) := by
  decide

/-- Clock discipline for one operation: a `sendStart` reads a first
`Date.now()` value strictly above every id already in the history, and its
second reading is at least the first (the clock does not run backwards
within one call); every other operation is unconstrained. -/
def opOk : Op → MachineState → Bool
  | Op.sendStart t1 t2, s =>
      s.chatHistory.all (fun m => decide (m.id < t1)) && decide (t1 ≤ t2)
  | _, _ => true

/-- Clock discipline along a whole operation sequence. -/
def disciplined : MachineState → List Op → Bool
  | _, [] => true
  | s, o :: rest => opOk o s && disciplined (stepOp o s) rest

theorem updateById_map_id (k : Nat) (f : ChatMessage → ChatMessage)
    (l : List ChatMessage) (hfid : ∀ m, (f m).id = m.id) :
    (updateById k f l).map ChatMessage.id = l.map ChatMessage.id := by
  rw [updateById, List.map_map]
  refine List.map_congr_left fun m hm => ?_
  show (if m.id = k then f m else m).id = m.id
  by_cases h : m.id = k
  · rw [if_pos h]
    exact hfid m
  · rw [if_neg h]

theorem loadChatHistory_ids_pairwise (now : Nat) (saved : List SavedMessage) :
    List.Pairwise (fun a b => a < b)
      ((V1.loadChatHistory now saved).map ChatMessage.id) := by
  induction saved generalizing now with
  | nil => exact List.Pairwise.nil
  | cons msg rest ih =>
      rw [V1.loadChatHistory, List.map_cons]
      refine List.pairwise_cons.mpr ⟨?_, ih (now + 1)⟩
      intro b hb
      rcases List.mem_map.mp hb with ⟨m, hm, rfl⟩
      exact Nat.lt_of_lt_of_le (Nat.lt_succ_self now)
        (V1.loadChatHistory_id_ge (now + 1) rest m hm)

theorem stepOp_ids_pairwise (o : Op) (s : MachineState)
    (hcond : opOk o s = true)
    (hpw : List.Pairwise (fun a b => a < b) (s.chatHistory.map ChatMessage.id)) :
    List.Pairwise (fun a b => a < b) ((stepOp o s).chatHistory.map ChatMessage.id) := by
  obtain ⟨hist, flight, ui, uf, st⟩ := s
  cases o with
  | setInput t => exact hpw
  | setUpload f => exact hpw
  | saveHistory => exact hpw
  | newConversation => exact List.Pairwise.nil
  | loadHistory now =>
      cases flight with
      | some mid => exact hpw
      | none =>
          cases st with
          | none => exact hpw
          | some saved => exact loadChatHistory_ids_pairwise now saved
  | sendStart t1 t2 =>
      rw [opOk, Bool.and_eq_true] at hcond
      rcases hcond with ⟨hall, ht12⟩
      have ht12' : t1 ≤ t2 := of_decide_eq_true ht12
      have hbelow : ∀ m ∈ hist, m.id < t1 := fun m hm =>
        of_decide_eq_true (List.all_eq_true.mp hall m hm)
      by_cases hg : (trimString ui = "" ∧ uf = none) ∨
          (⟨hist, flight, ui, uf, st⟩ : MachineState).inFlight ≠ none
      · have hstep : stepOp (Op.sendStart t1 t2) ⟨hist, flight, ui, uf, st⟩ =
            ⟨hist, flight, ui, uf, st⟩ := by
          simp only [stepOp]
          rw [if_pos hg]
        rw [hstep]
        exact hpw
      · have hstep : stepOp (Op.sendStart t1 t2) ⟨hist, flight, ui, uf, st⟩ =
            ⟨hist ++
              [V1.mkUserMessage t1 (trimString ui) uf,
               { id := t2 + 1, role := ChatRole.model, text := "", isLoading := true }],
             some (t2 + 1), "", none, st⟩ := by
          simp only [stepOp]
          rw [if_neg hg]
        rw [hstep]
        show List.Pairwise _ ((hist ++ _).map ChatMessage.id)
        rw [List.map_append]
        refine List.pairwise_append.mpr ⟨hpw, ?_, ?_⟩
        · show List.Pairwise _ [t1, t2 + 1]
          refine List.pairwise_cons.mpr ⟨?_, List.pairwise_singleton _ _⟩
          intro b hb
          rcases List.mem_singleton.mp hb with rfl
          exact Nat.lt_succ_of_le ht12'
        · intro a ha b hb
          rcases List.mem_map.mp ha with ⟨m, hm, rfl⟩
          have hma := hbelow m hm
          rcases List.mem_cons.mp hb with rfl | hb
          · exact hma
          · rcases List.mem_singleton.mp hb with rfl
            exact Nat.lt_succ_of_le (Nat.le_trans (Nat.le_of_lt hma) ht12')
  | streamChunk c =>
      cases flight with
      | none => exact hpw
      | some mid =>
          have := updateById_map_id mid (fun m => V2.accumulate m c) hist fun m => rfl
          exact this ▸ hpw
  | setText t =>
      cases flight with
      | none => exact hpw
      | some mid =>
          have := updateById_map_id mid (fun m => { m with text := t }) hist fun m => rfl
          exact this ▸ hpw
  | settle =>
      cases flight with
      | none => exact hpw
      | some mid =>
          have := updateById_map_id mid (fun m => { m with isLoading := false }) hist
            fun m => rfl
          exact this ▸ hpw
  | settleWith t img vid =>
      cases flight with
      | none => exact hpw
      | some mid =>
          have := updateById_map_id mid (fun m =>
            { m with text := t,
                     image := img.orElse fun _ => m.image,
                     video := vid.orElse fun _ => m.video,
                     isLoading := false }) hist fun m => rfl
          exact this ▸ hpw
  | sendEnd =>
      cases flight with
      | none => exact hpw
      | some mid =>
          by_cases hall2 : hist.all (fun m => !m.isLoading) = true
          · have hstep : stepOp Op.sendEnd ⟨hist, some mid, ui, uf, st⟩ =
                ⟨hist, none, ui, uf, st⟩ := by
              simp only [stepOp]
              rw [if_pos hall2]
            rw [hstep]
            exact hpw
          · have hstep : stepOp Op.sendEnd ⟨hist, some mid, ui, uf, st⟩ =
                ⟨hist, some mid, ui, uf, st⟩ := by
              simp only [stepOp]
              rw [if_neg hall2]
            rw [hstep]
            exact hpw
  | setPlaying mid b =>
      have := updateById_map_id mid (fun m => { m with isPlayingAudio := b }) hist
        fun m => rfl
      exact this ▸ hpw

theorem disciplined_run_pairwise (ops : List Op) : ∀ (s : MachineState),
    disciplined s ops = true →
    List.Pairwise (fun a b => a < b) (s.chatHistory.map ChatMessage.id) →
    List.Pairwise (fun a b => a < b)
      ((ops.foldl (fun s o => stepOp o s) s).chatHistory.map ChatMessage.id) := by
  induction ops with
  | nil => exact fun s _ hpw => hpw
  | cons o rest ih =>
      intro s hd hpw
      rw [disciplined, Bool.and_eq_true] at hd
      rcases hd with ⟨hcond, hrest⟩
      exact ih (stepOp o s) hrest (stepOp_ids_pairwise o s hcond hpw)

/-- Claim C8, amended: in every state reachable under the clock discipline —
each send's first `Date.now()` reading exceeds every id already in the
history and its second reading is no earlier than the first — message ids
are unique and strictly increasing in insertion order. -/
theorem ids_strictly_increasing (ops : List Op)
    (hd : disciplined initState ops = true) :
    List.Pairwise (fun a b => a < b) ((run ops).chatHistory.map ChatMessage.id) ∧
    ((run ops).chatHistory.map ChatMessage.id).Nodup := by
  have hpw := disciplined_run_pairwise ops initState hd List.Pairwise.nil
  exact ⟨hpw, hpw.imp fun h => Nat.ne_of_lt h⟩

/-- Witness for the amended C8: two well-spaced sends produce the strictly
increasing ids 1000, 1001, 2000, 2001. -/
theorem ids_strictly_increasing_witness :
    List.Pairwise (fun a b => a < b)
      ((run [Op.setInput "hi", Op.sendStart 1000 1000, Op.settle, Op.sendEnd,
         Op.setInput "ho", Op.sendStart 2000 2000]).chatHistory.map ChatMessage.id) ∧
    ((run [Op.setInput "hi", Op.sendStart 1000 1000, Op.settle, Op.sendEnd,
       Op.setInput "ho", Op.sendStart 2000 2000]).chatHistory.map ChatMessage.id).Nodup :=
  ids_strictly_increasing
    [Op.setInput "hi", Op.sendStart 1000 1000, Op.settle, Op.sendEnd,
     Op.setInput "ho", Op.sendStart 2000 2000] (by decide)
